import Mathlib

/-!
Shallow embedding of the UndoManager module (`src/undo_manager/index.js`).

The module wraps a `backbone-undo` instance `um`: it builds a configuration by
object spread, installs capture handlers for the undo types `change`, `add`,
`remove` and the `change:style` / `change:attributes` / `change:content` /
`change:src` family, wires `um` events to the host event bus `em`, and exposes a
facade (`undo`, `redo`, `undoAll`, `redoAll`, `getStackGroup`, `destroy`, ...).

JavaScript values appearing in the module (attribute values, the `_undo`
marker, configuration entries) are embedded as `JSVal`; JS objects used as
string-keyed records are embedded as association lists `List (String × JSVal)`
where the earliest binding wins on lookup (so a spread that must override is
prepended).  The mutable module-level variable `beforeCache` (`null` or a
snapshot) is embedded as an `Option` threaded explicitly through the handlers.
-/

/-- JavaScript values occurring in the module.  The only arrays the module
inspects element-wise are `_undo` markers, which are lists of attribute names
(strings), so `arr` carries a `List String`. -/
inductive JSVal where
  | str : String → JSVal
  | boolean : Bool → JSVal
  | num : Int → JSVal
  | arr : List String → JSVal
  | undef : JSVal
deriving DecidableEq, Repr

/-- JS truthiness: `false`, `0`, the empty string and `undefined` are falsy;
every array (even empty) is truthy. -/
def truthy : JSVal → Bool
  | JSVal.str s => !(s == "")
  | JSVal.boolean b => b
  | JSVal.num n => !(n == 0)
  | JSVal.arr _ => true
  | JSVal.undef => false

/-- underscore's `isBoolean`. -/
def isBoolean : JSVal → Bool
  | JSVal.boolean _ => true
  | _ => false

/-- underscore's `isArray`. -/
def isArray : JSVal → Bool
  | JSVal.arr _ => true
  | _ => false

/-- A JS object used as a string-keyed record: association list, first binding
wins on property lookup. -/
abbrev JSObj := List (String × JSVal)

/-- Property lookup `o[k]`: first binding for `k`, `undefined` if absent. -/
def jsGetProp (o : JSObj) (k : String) : JSVal :=
  match o.find? (fun p => p.1 == k) with
  | some p => p.2
  | none => JSVal.undef

/-- Object spread `\x7b ...a, ...b \x7d`: properties of `b` override properties of
`a`.  With first-binding-wins lookup this is `b` prepended to the bindings of
`a` that `b` does not override. -/
def jsSpread2 (a b : JSObj) : JSObj :=
  b ++ a.filter (fun p => (b.find? (fun q => q.1 == p.1)).isNone)

/-- `configDef = \x7b maximumStackLength: 500 \x7d` (line 35 of the module). -/
def configDef : JSObj := [("maximumStackLength", JSVal.num 500)]

/-- `config = \x7b ...opts, ...configDef \x7d` from `init` (line 49): the caller's
options are spread first and the defaults second, so the defaults override. -/
def initConfig (opts : JSObj) : JSObj :=
  jsSpread2 opts configDef

/-- `getConfig()` returns the stored `config` unchanged. -/
def getConfigF (config : JSObj) : JSObj :=
  config

/-- JS `Array.prototype.indexOf` over a string array, searching for an
arbitrary JS value with strict equality `===`: a non-string value is `===` to
no string element, so the result is `-1` unless the value is a string occurring
in the array. -/
def strIndexOfAux (x : String) : List String → Int → Int
  | [], _ => -1
  | y :: rest, i => if y == x then i else strIndexOfAux x rest (i + 1)

/-- `l.indexOf(v)` for a string array `l` and a JS value `v`. -/
def jsIndexOf (l : List String) (v : JSVal) : Int :=
  match v with
  | JSVal.str s => strIndexOfAux s l 0
  | _ => -1

/-- A tracked Backbone entity as the handlers observe it: its id, its `_undo`
marker (`object.get('_undo')`), and the values of the Backbone calls the
handlers make on it. -/
structure Entity where
  id : Nat
  undoMarker : JSVal
  changedAttributes : JSObj
  previousAttributes : JSObj
  toJSONFromUndo : JSObj
  toJSONKeepSymbols : JSObj
deriving DecidableEq, Repr

/-- The `condition` of the `change` undo type (lines 54–66), translated
clause by clause.  Note the source tests `hasUndo.indexOf(hasUndo) >= 0`
inside `changed.some(chn => ...)`: the array is searched for itself and the
bound attribute name `chn` is unused. -/
def condition (object : Entity) : Bool :=
  let hasUndo := object.undoMarker
  if truthy hasUndo then
    if isBoolean hasUndo then true
    else
      match hasUndo with
      | JSVal.arr hasUndoList =>
        let changed := object.changedAttributes.map (fun p => p.1)
        if changed.any (fun _chn => decide (jsIndexOf hasUndoList hasUndo ≥ 0)) then true
        else false
      | _ => false
  else false

/-- A snapshot of an entity's attributes. -/
abbrev Snapshot := JSObj

/-- The options object passed with a mutation notification; only the two
suppression flags are inspected by the module. -/
structure Opts where
  avoidStore : Bool
  noUndo : Bool
deriving DecidableEq, Repr

/-- `hasSkip = opts => opts.avoidStore || opts.noUndo` (line 38). -/
def hasSkip (opts : Opts) : Bool :=
  opts.avoidStore || opts.noUndo

/-- A capture result of the `change` / custom undo types
(`\x7b object, before, after \x7d`). -/
structure ChangeResult where
  objectId : Nat
  before : Snapshot
  after : Snapshot
deriving DecidableEq, Repr

/-- The `on` handler of the `change` undo type (lines 67–81).  The
module-level variable `beforeCache` is threaded explicitly: the result is
`(capture result or none, new value of beforeCache)`.
`beforeCache.getD object.previousAttributes` embeds
`!beforeCache && (beforeCache = object.previousAttributes())`. -/
def changeOn (beforeCache : Option Snapshot) (object : Entity) (opt : Opts) :
    Option ChangeResult × Option Snapshot :=
  let bc := beforeCache.getD object.previousAttributes
  if hasSkip opt then (none, some bc)
  else (some { objectId := object.id, before := bc, after := object.toJSONFromUndo }, none)

/-- The `on` handler of `customUndoType` (lines 106–119), registered for the
events `change:style`, `change:attributes`, `change:content`, `change:src`.
Identical to `changeOn` except that `after` is `object.toJSON(\x7b keepSymbols: 1 \x7d)`.
It shares the same module-level `beforeCache`. -/
def customOn (beforeCache : Option Snapshot) (object : Entity) (opt : Opts) :
    Option ChangeResult × Option Snapshot :=
  let bc := beforeCache.getD object.previousAttributes
  if hasSkip opt then (none, some bc)
  else (some { objectId := object.id, before := bc, after := object.toJSONKeepSymbols }, none)

/-- The event names the `customUndoType` is registered for (lines 131–132). -/
def customUndoEvents : List String :=
  ["style", "attributes", "content", "src"].map (fun ev => "change:" ++ ev)

/-- A capture result of the `add` / `remove` undo types. -/
structure AddRemoveResult where
  objectId : Nat
  before : Option Nat
  after : Option Nat
  optionsCopy : Opts
deriving DecidableEq, Repr

/-- The `on` handler of the `add` undo type (lines 84–92): captures the added
model as `after` with `before` undefined, copying the options. -/
def addOn (model : Nat) (collection : Nat) (options : Opts) : Option AddRemoveResult :=
  if hasSkip options then none
  else some { objectId := collection, before := none, after := some model, optionsCopy := options }

/-- The `on` handler of the `remove` undo type (lines 94–103): captures the
removed model as `before` with `after` undefined. -/
def removeOn (model : Nat) (collection : Nat) (options : Opts) : Option AddRemoveResult :=
  if hasSkip options then none
  else some { objectId := collection, before := some model, after := none, optionsCopy := options }

/-- Appending a capture result to a stack when the handler produced one; a
handler that returns no result leaves the stack untouched. -/
def pushIfSome {α : Type} (stack : List α) : Option α → List α
  | some r => stack ++ [r]
  | none => stack

/-- An entry of the backbone-undo stack: a Backbone model whose attributes
include the target, the `before`/`after` snapshots and the
`magicFusionIndex` group identifier read by `getStackGroup`. -/
structure Rec where
  targetId : Nat
  before : Snapshot
  after : Snapshot
  magicFusionIndex : Nat
deriving DecidableEq, Repr

/-- JS `Array.prototype.indexOf` over a number array (used on the `inserted`
array of `getStackGroup`). -/
def natIndexOfAux (x : Nat) : List Nat → Int → Int
  | [], _ => -1
  | y :: rest, i => if y == x then i else natIndexOfAux x rest (i + 1)

/-- `inserted.indexOf(index)`. -/
def natIndexOf (l : List Nat) (x : Nat) : Int :=
  natIndexOfAux x l 0

/-- The `forEach` loop of `getStackGroup` (lines 299–305): walk the stack,
keeping an item when its `magicFusionIndex` has not been inserted yet. -/
def getStackGroupAux : List Rec → List Nat → List Rec
  | [], _ => []
  | item :: rest, inserted =>
    if natIndexOf inserted item.magicFusionIndex < 0 then
      item :: getStackGroupAux rest (inserted ++ [item.magicFusionIndex])
    else getStackGroupAux rest inserted

/-- `getStackGroup()` (lines 295–308), starting from empty `result` and
`inserted` arrays. -/
def getStackGroup (stack : List Rec) : List Rec :=
  getStackGroupAux stack []

/-- Specification-side definition, following the spec's words: iterate records
in stack order and keep only the first record encountered for each distinct
group identifier, preserving order of first appearance. -/
def keepFirstByGroup : List Rec → List Rec
  | [] => []
  | r :: rest =>
      r :: keepFirstByGroup (rest.filter (fun s => s.magicFusionIndex != r.magicFusionIndex))
termination_by l => l.length
decreasing_by
  simp only [List.length_cons]
  exact Nat.lt_succ_of_le (List.length_filter_le _ _)

/-- The engine state seen by the facade: the host's edit flag (`em.isEditing()`),
the inner backbone-undo stack with its pointer, and the observable state of the
tracked entities (id, attributes). -/
structure Engine where
  isEditing : Bool
  stack : List Rec
  pointer : Nat
  entities : List (Nat × Snapshot)
deriving DecidableEq, Repr

/-- `model.set(snapshot)` on the tracked entity with the given id
(the custom undo type's `undo`/`redo`, lines 122–128). -/
def applyTo (ents : List (Nat × Snapshot)) (id : Nat) (snap : Snapshot) :
    List (Nat × Snapshot) :=
  ents.map (fun e => if e.1 = id then (e.1, snap) else e)

/-- Modelled from the spec: one undo step of the Command Stack
(`backbone-undo`'s stepwise primitive, not under `src/`): while the pointer is
positive, decrement it and apply the record's `before` snapshot to its target. -/
def umUndoStep (e : Engine) : Engine :=
  if e.pointer = 0 then e
  else
    match e.stack[e.pointer - 1]? with
    | some r =>
        { e with pointer := e.pointer - 1, entities := applyTo e.entities r.targetId r.before }
    | none => { e with pointer := e.pointer - 1 }

/-- Modelled from the spec: one redo step of the Command Stack: while the
pointer is below the stack length, apply the record's `after` snapshot and
increment the pointer. -/
def umRedoStep (e : Engine) : Engine :=
  if e.pointer < e.stack.length then
    match e.stack[e.pointer]? with
    | some r =>
        { e with pointer := e.pointer + 1, entities := applyTo e.entities r.targetId r.after }
    | none => { e with pointer := e.pointer + 1 }
  else e

/-- Modelled from the spec: undoing one logical operation walks contiguous
records sharing the group identifier of the latest applied record, as a single
step (`um.undo(true)`). -/
def umUndoGroupAux : Nat → Nat → Engine → Engine
  | 0, _, e => e
  | n + 1, g, e =>
    if e.pointer = 0 then e
    else
      match e.stack[e.pointer - 1]? with
      | some r => if r.magicFusionIndex = g then umUndoGroupAux n g (umUndoStep e) else e
      | none => e

/-- Modelled from the spec: `um.undo(true)`. -/
def umUndo (e : Engine) : Engine :=
  match e.stack[e.pointer - 1]? with
  | some r => umUndoGroupAux e.pointer r.magicFusionIndex e
  | none => e

/-- Modelled from the spec: redoing one logical operation walks contiguous
records sharing the group identifier of the next unapplied record
(`um.redo(true)`). -/
def umRedoGroupAux : Nat → Nat → Engine → Engine
  | 0, _, e => e
  | n + 1, g, e =>
    if e.pointer < e.stack.length then
      match e.stack[e.pointer]? with
      | some r => if r.magicFusionIndex = g then umRedoGroupAux n g (umRedoStep e) else e
      | none => e
    else e

/-- Modelled from the spec: `um.redo(true)`. -/
def umRedo (e : Engine) : Engine :=
  match e.stack[e.pointer]? with
  | some r => umRedoGroupAux (e.stack.length - e.pointer) r.magicFusionIndex e
  | none => e

/-- Modelled from the spec: `um.undoAll()` repeats the undo step until the
history is exhausted; `pointer` many iterations suffice. -/
def umUndoAllAux : Nat → Engine → Engine
  | 0, e => e
  | n + 1, e => umUndoAllAux n (umUndoStep e)

/-- Modelled from the spec: `um.undoAll()`. -/
def umUndoAll (e : Engine) : Engine :=
  umUndoAllAux e.pointer e

/-- Modelled from the spec: `um.redoAll()` repeats the redo step until the
pointer reaches the stack length. -/
def umRedoAllAux : Nat → Engine → Engine
  | 0, e => e
  | n + 1, e => umRedoAllAux n (umRedoStep e)

/-- Modelled from the spec: `um.redoAll()`. -/
def umRedoAll (e : Engine) : Engine :=
  umRedoAllAux (e.stack.length - e.pointer) e

/-- The facade's `undo(all = true)` (lines 216–219):
`!em.isEditing() && um.undo(all); return this` — the returned engine models the
state reachable through the returned `this`. -/
def undoF (e : Engine) : Engine :=
  if e.isEditing then e else umUndo e

/-- The facade's `redo(all = true)` (lines 238–241). -/
def redoF (e : Engine) : Engine :=
  if e.isEditing then e else umRedo e

/-- The facade's `undoAll()` (lines 227–230): delegates unconditionally. -/
def undoAllF (e : Engine) : Engine :=
  umUndoAll e

/-- The facade's `redoAll()` (lines 249–252): delegates unconditionally. -/
def redoAllF (e : Engine) : Engine :=
  umRedoAll e

/-- The module-level state relevant to `destroy()`: the captured variables
`em`, `um` (its stack and registered entities), `config`, `beforeCache`, and
the facade's own `em` property. -/
structure ModuleState where
  em : JSObj
  umStack : List Rec
  umRegistered : List Nat
  config : JSObj
  beforeCache : Option Snapshot
  thisEm : JSObj
deriving DecidableEq, Repr

/-- `clear()` (lines 320–323): `um.clear()` empties the stack. -/
def clearF (s : ModuleState) : ModuleState :=
  { s with umStack := [] }

/-- `removeAll()` (lines 183–186): `um.unregisterAll()`. -/
def removeAllF (s : ModuleState) : ModuleState :=
  { s with umRegistered := [] }

/-- `destroy()` (lines 329–333): `this.clear().removeAll()`, then
`[em, um, config, beforeCache].forEach(i => (i = \x7b\x7d))` — in JavaScript this
reassigns only the callback's local parameter `i`, so the captured variables
`em`, `um`, `config` and `beforeCache` are left untouched — and finally
`this.em = \x7b\x7d`. -/
def destroyF (s : ModuleState) : ModuleState :=
  let s1 := removeAllF (clearF s)
  { s1 with thisEm := [] }

/-- Splitting a character list at spaces, accumulating the current word
reversed. -/
def splitEventsAux : List Char → List Char → List String
  | [], acc => [String.mk acc.reverse]
  | c :: rest, acc =>
    if c = ' ' then String.mk acc.reverse :: splitEventsAux rest []
    else splitEventsAux rest (c :: acc)

/-- Backbone splits a space-separated event string into event names. -/
def splitEvents (s : String) : List String :=
  splitEventsAux s.toList []

/-- The handlers `init` registers on the inner undo manager (lines 133–136),
as pairs of (um event name, event names triggered on `em`):
`um.on('undo redo', () => em.trigger('component:toggled change:canvasOffset'))`
followed by `['undo', 'redo'].forEach(ev => um.on(ev, () => em.trigger(ev)))`. -/
def initUmRegistrations : List (String × List String) :=
  (splitEvents "undo redo").map
      (fun ev => (ev, splitEvents "component:toggled change:canvasOffset"))
    ++ ["undo", "redo"].map (fun ev => (ev, [ev]))

/-- The events triggered on `em` when the inner undo manager fires `ev`, in
registration order. -/
def emTriggersOn (ev : String) : List String :=
  (initUmRegistrations.filter (fun p => p.1 == ev)).flatMap (fun p => p.2)

/-- Options with only `avoidStore` set. -/
def optsAvoid : Opts :=
  { avoidStore := true, noUndo := false }

/-- Options with neither suppression flag set. -/
def optsPlain : Opts :=
  { avoidStore := false, noUndo := false }

/-- An entity whose `_undo` marker is the attribute-name list `['color']` and
whose changed attribute is exactly `color`. -/
def entListMarker : Entity :=
  { id := 3
    undoMarker := JSVal.arr ["color"]
    changedAttributes := [("color", JSVal.str "blue")]
    previousAttributes := [("color", JSVal.str "red")]
    toJSONFromUndo := [("color", JSVal.str "blue")]
    toJSONKeepSymbols := [("color", JSVal.str "blue")] }

/-- Entity A of the shared-cache scenarios. -/
def entA : Entity :=
  { id := 1
    undoMarker := JSVal.boolean true
    changedAttributes := [("color", JSVal.str "green")]
    previousAttributes := [("color", JSVal.str "red")]
    toJSONFromUndo := [("color", JSVal.str "green")]
    toJSONKeepSymbols := [("color", JSVal.str "green")] }

/-- Entity B of the shared-cache scenarios, with a different pre-mutation
snapshot than entity A. -/
def entB : Entity :=
  { id := 2
    undoMarker := JSVal.boolean true
    changedAttributes := [("width", JSVal.str "10px")]
    previousAttributes := [("width", JSVal.str "5px")]
    toJSONFromUndo := [("width", JSVal.str "10px")]
    toJSONKeepSymbols := [("width", JSVal.str "10px")] }

/-- Two concrete stack records in distinct groups. -/
def recOne : Rec :=
  { targetId := 1
    before := [("color", JSVal.str "red")]
    after := [("color", JSVal.str "green")]
    magicFusionIndex := 7 }

/-- A second concrete stack record. -/
def recTwo : Rec :=
  { targetId := 2
    before := [("width", JSVal.str "5px")]
    after := [("width", JSVal.str "10px")]
    magicFusionIndex := 8 }

/-- An engine with history available while the host reports an active
inline-edit session. -/
def engEditing : Engine :=
  { isEditing := true
    stack := [recOne, recTwo]
    pointer := 2
    entities := [(1, [("color", JSVal.str "green")]), (2, [("width", JSVal.str "10px")])] }

/-- An engine with an undone record available for redo, also in edit mode, to
exercise `undoAll`/`redoAll` irrespective of the edit flag. -/
def engHalf : Engine :=
  { isEditing := true
    stack := [recOne, recTwo]
    pointer := 1
    entities := [(1, [("color", JSVal.str "green")]), (2, [("width", JSVal.str "5px")])] }

/-- A module state with a populated stack, registered entities, a
configuration and a pending `beforeCache` snapshot. -/
def modState : ModuleState :=
  { em := [("editing", JSVal.boolean false)]
    umStack := [recOne, recTwo]
    umRegistered := [1, 2]
    config := [("maximumStackLength", JSVal.num 500)]
    beforeCache := some [("color", JSVal.str "red")]
    thisEm := [("editing", JSVal.boolean false)] }

/-- C1: the claim says a caller-supplied `maximumStackLength` is the one in
effect; the code spreads `configDef` after `opts`, so the default 500 always
wins.  First conjunct: for every `opts`, the effective (and returned) value is
500; second conjunct: in particular a caller supplying 10 does not get 10. -/
theorem config_maximumStackLength_default_overrides :
    (∀ opts : JSObj,
        jsGetProp (getConfigF (initConfig opts)) "maximumStackLength" = JSVal.num 500) ∧
    jsGetProp (getConfigF (initConfig [("maximumStackLength", JSVal.num 10)]))
        "maximumStackLength" ≠ JSVal.num 10 := by
  refine ⟨fun opts => rfl, by decide⟩

/-- C2: for an entity whose `_undo` marker is a list of attribute names, the
`change` condition is false regardless of which attributes changed, because
the source tests `hasUndo.indexOf(hasUndo)` — the marker list searched for
itself — instead of `hasUndo.indexOf(chn)`. -/
theorem condition_list_marker_never_true (e : Entity) (l : List String)
    (h : e.undoMarker = JSVal.arr l) : condition e = false := by
  simp [condition, h, truthy, isBoolean, jsIndexOf]

/-- C2 witness: the condition is false even for an entity whose only changed
attribute `color` is in its marker list `['color']`, where the claim says it
must be true. -/
theorem condition_list_marker_never_true_witness :
    condition entListMarker = false :=
  condition_list_marker_never_true entListMarker ["color"] rfl

/-- C3: with either suppression flag set, each capture handler (`change`, the
custom `change:style`/`change:attributes`/`change:content`/`change:src`
handler, `add`, `remove`) produces no capture result, and pushing the (absent)
result leaves any stack unchanged. -/
theorem suppression_flags_skip_capture (bc : Option Snapshot) (object : Entity)
    (m c : Nat) (opt : Opts) (s1 : List ChangeResult) (s2 : List AddRemoveResult)
    (h : opt.avoidStore = true ∨ opt.noUndo = true) :
    (changeOn bc object opt).1 = none ∧ (customOn bc object opt).1 = none ∧
    addOn m c opt = none ∧ removeOn m c opt = none ∧
    pushIfSome s1 (changeOn bc object opt).1 = s1 ∧
    pushIfSome s1 (customOn bc object opt).1 = s1 ∧
    pushIfSome s2 (addOn m c opt) = s2 ∧
    pushIfSome s2 (removeOn m c opt) = s2 := by
  have hs : hasSkip opt = true := by
    rcases h with h | h <;> simp [hasSkip, h]
  simp [changeOn, customOn, addOn, removeOn, hs, pushIfSome]

/-- C3 witness: a concrete suppressed mutation produces no record and leaves a
concrete stack unchanged. -/
theorem suppression_flags_skip_capture_witness :
    (changeOn none entA optsAvoid).1 = none ∧ (customOn none entA optsAvoid).1 = none ∧
    addOn 5 9 optsAvoid = none ∧ removeOn 5 9 optsAvoid = none ∧
    pushIfSome ([] : List ChangeResult) (changeOn none entA optsAvoid).1 = [] ∧
    pushIfSome ([] : List ChangeResult) (customOn none entA optsAvoid).1 = [] ∧
    pushIfSome ([] : List AddRemoveResult) (addOn 5 9 optsAvoid) = [] ∧
    pushIfSome ([] : List AddRemoveResult) (removeOn 5 9 optsAvoid) = [] :=
  suppression_flags_skip_capture none entA 5 9 optsAvoid [] [] (Or.inl rfl)

/-- C4: while the host reports an active inline-edit session, `undo()` and
`redo()` leave the whole engine state (stack, pointer, tracked entities)
unchanged; the facade returns `this`, modelled by returning the engine. -/
theorem undo_redo_edit_mode_guard (e : Engine) (h : e.isEditing = true) :
    undoF e = e ∧ redoF e = e := by
  simp [undoF, redoF, h]

/-- C4 witness: a concrete editing-mode engine with available history is left
unchanged by `undo()` and `redo()`. -/
theorem undo_redo_edit_mode_guard_witness :
    undoF engEditing = engEditing ∧ redoF engEditing = engEditing :=
  undo_redo_edit_mode_guard engEditing rfl

/-- C7: the `before` cache is one module-level slot shared across entities, so
a capture can carry another entity's pre-mutation snapshot.  Concretely:
entity A begins a mutation whose capture does not complete (suppressed, so the
cache keeps A's snapshot), then entity B's capture completes — and B's
resulting record carries A's snapshot, not B's own, as its `before` value. -/
theorem shared_beforeCache_cross_entity_contamination :
    (changeOn none entA optsAvoid).1 = none ∧
    (changeOn none entA optsAvoid).2 = some entA.previousAttributes ∧
    (changeOn (changeOn none entA optsAvoid).2 entB optsPlain).1 =
      some { objectId := entB.id, before := entA.previousAttributes,
             after := entB.toJSONFromUndo } ∧
    entA.previousAttributes ≠ entB.previousAttributes := by
  decide

/-- C8: `destroy()` empties the stack, unregisters the tracked entities and
resets the facade's own `em` property, but the `forEach(i => (i = \x7b\x7d))` line
reassigns only the callback parameter, so the module-level references `em`,
`um`'s contents aside, `config` and `beforeCache` are all still held
afterwards — contrary to the claim that all references are released. -/
theorem destroy_retains_internal_references :
    (destroyF modState).umStack = [] ∧ (destroyF modState).umRegistered = [] ∧
    (destroyF modState).thisEm = [] ∧
    (destroyF modState).config = modState.config ∧ modState.config ≠ [] ∧
    (destroyF modState).beforeCache = modState.beforeCache ∧
    modState.beforeCache ≠ none ∧
    (destroyF modState).em = modState.em ∧ modState.em ≠ [] := by
  decide

/-- C9: when the inner undo manager fires `undo` the host bus receives the
`undo` event together with the visual-refresh signals `component:toggled` and
`change:canvasOffset`, and symmetrically for `redo`. -/
theorem undo_redo_events_emitted :
    emTriggersOn "undo" = ["component:toggled", "change:canvasOffset", "undo"] ∧
    emTriggersOn "redo" = ["component:toggled", "change:canvasOffset", "redo"] := by
  constructor <;> rfl

/-- C10: a suppressed capture (on entity A, through either the `change` or the
custom handler) leaves A's snapshot in the shared cache, and the next
non-suppressed capture through either handler — on any entity B — uses A's
cached snapshot as its `before` value instead of B's own previous
attributes. -/
theorem stale_beforeCache_after_suppressed_capture (A B : Entity) (o1 o2 : Opts)
    (h1 : hasSkip o1 = true) (h2 : hasSkip o2 = false) :
    (changeOn none A o1).1 = none ∧
    (changeOn none A o1).2 = some A.previousAttributes ∧
    (changeOn (changeOn none A o1).2 B o2).1 =
      some { objectId := B.id, before := A.previousAttributes,
             after := B.toJSONFromUndo } ∧
    (customOn none A o1).2 = some A.previousAttributes ∧
    (customOn (customOn none A o1).2 B o2).1 =
      some { objectId := B.id, before := A.previousAttributes,
             after := B.toJSONKeepSymbols } ∧
    (customOn (changeOn none A o1).2 B o2).1 =
      some { objectId := B.id, before := A.previousAttributes,
             after := B.toJSONKeepSymbols } ∧
    (changeOn (customOn none A o1).2 B o2).1 =
      some { objectId := B.id, before := A.previousAttributes,
             after := B.toJSONFromUndo } := by
  simp [changeOn, customOn, h1, h2]

/-- C10 witness: the contaminated capture at the concrete entities A and B. -/
theorem stale_beforeCache_after_suppressed_capture_witness :
    (changeOn (changeOn none entA optsAvoid).2 entB optsPlain).1 =
      some { objectId := entB.id, before := entA.previousAttributes,
             after := entB.toJSONFromUndo } :=
  (stale_beforeCache_after_suppressed_capture entA entB optsAvoid optsPlain rfl rfl).2.2.1

/-- Each undo step decrements the pointer, saturating at zero. -/
theorem umUndoStep_pointer (e : Engine) : (umUndoStep e).pointer = e.pointer - 1 := by
  unfold umUndoStep
  split
  · omega
  · split <;> rfl

/-- Iterating the undo step `n` times subtracts `n` from the pointer. -/
theorem umUndoAllAux_pointer (n : Nat) :
    ∀ e : Engine, (umUndoAllAux n e).pointer = e.pointer - n := by
  induction n with
  | zero => intro e; rfl
  | succ k ih =>
    intro e
    simp only [umUndoAllAux]
    rw [ih (umUndoStep e), umUndoStep_pointer]
    omega

/-- The redo step never changes the stack. -/
theorem umRedoStep_stack (e : Engine) : (umRedoStep e).stack = e.stack := by
  unfold umRedoStep
  split
  · split <;> rfl
  · rfl

/-- Below the stack length, the redo step increments the pointer. -/
theorem umRedoStep_pointer_lt (e : Engine) (h : e.pointer < e.stack.length) :
    (umRedoStep e).pointer = e.pointer + 1 := by
  unfold umRedoStep
  rw [if_pos h]
  split <;> rfl

/-- At or past the stack length, the redo step is the identity. -/
theorem umRedoStep_eq_of_ge (e : Engine) (h : ¬e.pointer < e.stack.length) :
    umRedoStep e = e := by
  unfold umRedoStep
  rw [if_neg h]

/-- Iterating the redo step never changes the stack. -/
theorem umRedoAllAux_stack (n : Nat) : ∀ e : Engine, (umRedoAllAux n e).stack = e.stack := by
  induction n with
  | zero => intro e; rfl
  | succ k ih =>
    intro e
    simp only [umRedoAllAux]
    rw [ih (umRedoStep e), umRedoStep_stack]

/-- With enough iterations, the redo step drives the pointer to the stack
length. -/
theorem umRedoAllAux_pointer (n : Nat) :
    ∀ e : Engine, e.stack.length ≤ e.pointer + n → e.pointer ≤ e.stack.length →
    (umRedoAllAux n e).pointer = e.stack.length := by
  induction n with
  | zero =>
    intro e h1 h2
    have : e.pointer = e.stack.length := by omega
    simpa [umRedoAllAux] using this
  | succ k ih =>
    intro e h1 h2
    simp only [umRedoAllAux]
    by_cases hlt : e.pointer < e.stack.length
    · have hs := umRedoStep_stack e
      have hp := umRedoStep_pointer_lt e hlt
      have hres := ih (umRedoStep e) (by rw [hs, hp]; omega) (by rw [hs, hp]; omega)
      rw [hres, hs]
    · rw [umRedoStep_eq_of_ge e hlt]
      exact ih e (by omega) h2

/-- C5: `undoAll()` and `redoAll()` exhaust the history for every engine state
— in particular regardless of the host's edit flag, since the engine is
universally quantified — driving the pointer to 0 (respectively the stack
length, whenever the pointer invariant `pointer ≤ length` holds); both facade
methods return `this`, modelled by returning the engine. -/
theorem undoAll_redoAll_exhaust (e : Engine) :
    (undoAllF e).pointer = 0 ∧
    (e.pointer ≤ e.stack.length →
      (redoAllF e).pointer = (redoAllF e).stack.length) := by
  constructor
  · show (umUndoAllAux e.pointer e).pointer = 0
    rw [umUndoAllAux_pointer]
    omega
  · intro h
    show (umRedoAllAux (e.stack.length - e.pointer) e).pointer =
      (umRedoAllAux (e.stack.length - e.pointer) e).stack.length
    rw [umRedoAllAux_stack]
    exact umRedoAllAux_pointer _ e (by omega) h

/-- C5 witness: on a concrete engine in edit mode with a half-applied history,
`undoAll()` reaches pointer 0 and `redoAll()` reaches the stack length. -/
theorem undoAll_redoAll_exhaust_witness :
    (undoAllF engHalf).pointer = 0 ∧
    (redoAllF engHalf).pointer = (redoAllF engHalf).stack.length :=
  ⟨(undoAll_redoAll_exhaust engHalf).1,
   (undoAll_redoAll_exhaust engHalf).2 (by decide)⟩

/-- `indexOf` starting from a nonnegative index is nonnegative on a member. -/
theorem natIndexOfAux_nonneg (x : Nat) (l : List Nat) :
    ∀ i : Int, 0 ≤ i → x ∈ l → 0 ≤ natIndexOfAux x l i := by
  induction l with
  | nil => intro i _ h; cases h
  | cons y rest ih =>
    intro i hi h
    simp only [natIndexOfAux]
    by_cases hb : (y == x) = true
    · rw [if_pos hb]; exact hi
    · rw [if_neg (by simp [hb])]
      rcases List.mem_cons.mp h with hxy | hmem
      · exact absurd (by simp [hxy]) hb
      · exact ih (i + 1) (by omega) hmem

/-- `indexOf` is `-1` on a non-member. -/
theorem natIndexOfAux_eq_neg_one (x : Nat) (l : List Nat) :
    ∀ i : Int, x ∉ l → natIndexOfAux x l i = -1 := by
  induction l with
  | nil => intro i _; rfl
  | cons y rest ih =>
    intro i h
    simp only [List.mem_cons, not_or] at h
    have hy : (y == x) = false := by
      simp only [beq_eq_false_iff_ne]
      exact Ne.symm h.1
    simp only [natIndexOfAux, hy, Bool.false_eq_true, if_false]
    exact ih (i + 1) h.2

/-- The JS membership test `inserted.indexOf(x) < 0` means `x` is not a
member. -/
theorem natIndexOf_neg_iff (l : List Nat) (x : Nat) : natIndexOf l x < 0 ↔ x ∉ l := by
  constructor
  · intro hlt hmem
    have := natIndexOfAux_nonneg x l 0 (by omega) hmem
    unfold natIndexOf at hlt
    omega
  · intro h
    unfold natIndexOf
    rw [natIndexOfAux_eq_neg_one x l 0 h]
    omega

/-- The `forEach` loop of `getStackGroup`, run with `inserted` prepopulated,
equals the specification-side keep-first reduction of the stack with the
already-inserted groups removed. -/
theorem getStackGroupAux_eq (l : List Rec) : ∀ ins : List Nat,
    getStackGroupAux l ins =
      keepFirstByGroup (l.filter (fun r => decide (r.magicFusionIndex ∉ ins))) := by
  induction l with
  | nil => intro ins; simp [getStackGroupAux, keepFirstByGroup]
  | cons item rest ih =>
    intro ins
    by_cases hmem : item.magicFusionIndex ∈ ins
    · have hcond : ¬natIndexOf ins item.magicFusionIndex < 0 := by
        rw [natIndexOf_neg_iff]
        simp [hmem]
      simp only [getStackGroupAux, if_neg hcond]
      rw [ih ins]
      congr 1
      simp [List.filter_cons, hmem]
    · have hcond : natIndexOf ins item.magicFusionIndex < 0 :=
        (natIndexOf_neg_iff _ _).mpr hmem
      simp only [getStackGroupAux, if_pos hcond]
      rw [ih (ins ++ [item.magicFusionIndex])]
      have hfilt : (item :: rest).filter (fun r => decide (r.magicFusionIndex ∉ ins)) =
          item :: rest.filter (fun r => decide (r.magicFusionIndex ∉ ins)) := by
        simp [List.filter_cons, hmem]
      rw [hfilt, keepFirstByGroup]
      congr 1
      rw [List.filter_filter]
      congr 1
      apply List.filter_congr
      intro a _
      by_cases h1 : a.magicFusionIndex ∈ ins <;>
        by_cases h2 : a.magicFusionIndex = item.magicFusionIndex <;>
          simp [h1, h2]

/-- `getStackGroup` is exactly the keep-first-per-group reduction. -/
theorem getStackGroup_eq_keepFirst (stack : List Rec) :
    getStackGroup stack = keepFirstByGroup stack := by
  have h := getStackGroupAux_eq stack []
  simpa [getStackGroup] using h

/-- The keep-first reduction has one entry per distinct group identifier. -/
theorem keepFirstByGroup_length (l : List Rec) :
    (keepFirstByGroup l).length =
      (l.map (fun r => r.magicFusionIndex)).toFinset.card := by
  induction l using keepFirstByGroup.induct with
  | case1 => simp [keepFirstByGroup]
  | case2 r rest ih =>
    have hms : ((rest.filter
          (fun s => s.magicFusionIndex != r.magicFusionIndex)).map
          (fun s => s.magicFusionIndex)).toFinset =
        ((rest.map (fun s => s.magicFusionIndex)).toFinset).erase r.magicFusionIndex := by
      ext x
      simp only [List.mem_toFinset, List.mem_map, List.mem_filter, bne_iff_ne,
        Finset.mem_erase]
      constructor
      · rintro ⟨a, ⟨ha, hne⟩, rfl⟩
        exact ⟨hne, a, ha, rfl⟩
      · rintro ⟨hne, a, ha, rfl⟩
        exact ⟨a, ⟨ha, hne⟩, rfl⟩
    have hcard : ∀ (s : Finset ℕ) (a : ℕ), (insert a s).card = (s.erase a).card + 1 := by
      intro s a
      by_cases hmem : a ∈ s
      · rw [Finset.insert_eq_self.mpr hmem, Finset.card_erase_of_mem hmem]
        have : 0 < s.card := Finset.card_pos.mpr ⟨a, hmem⟩
        omega
      · rw [Finset.erase_eq_of_not_mem hmem, Finset.card_insert_of_not_mem hmem]
    rw [keepFirstByGroup]
    simp only [List.length_cons, ih, hms, List.map_cons, List.toFinset_cons]
    rw [hcard]

/-- C6: `getStackGroup()` returns exactly the subsequence keeping the first
record per distinct `magicFusionIndex` in order of first appearance (the
specification-side `keepFirstByGroup`), and its length is the number of
distinct group identifiers in the stack. -/
theorem getStackGroup_first_per_group (stack : List Rec) :
    getStackGroup stack = keepFirstByGroup stack ∧
    (getStackGroup stack).length =
      (stack.map (fun r => r.magicFusionIndex)).toFinset.card := by
  refine ⟨getStackGroup_eq_keepFirst stack, ?_⟩
  rw [getStackGroup_eq_keepFirst stack, keepFirstByGroup_length]




